import Mathlib

/-!
# Verification of `parse_and_analyze_stats.py`

A shallow embedding of the NBA statistics pipeline.  Modelling conventions:

* Python `float` values are idealised as rationals (`ℚ`); the single
  irrational operation, `math.sqrt`, is expressed in theorem statements as
  `Real.sqrt` applied to the rational quantity under the root.
* Python `str` is modelled as Lean `String` where only equality matters
  (dictionary keys, team names) and as `List Char` where per-character
  structure matters (the filename predicate; Python `len` and `endswith`
  count/compare characters).
* `datetime` values produced by `strptime` are modelled as year/month/day
  triples compared lexicographically, which is the chronological order on
  valid dates.
* The `defaultdict` of `parse_all_team_files` is modelled as an
  insertion-ordered association list (Python dicts preserve insertion
  order); `getState` is the defaulting read, `setState` the write.
* `float(...)` and `datetime.strptime(...)` are Python library calls; they
  are passed in as abstract parsing functions returning `Option`, with
  `none` modelling the `ValueError` branch.
* Python list indexing inside `percentile` is modelled totally via
  `List.getD _ 0`; theorem `percentile_indices_in_bounds` shows the
  indices are in range for the fractions the program uses, so the default
  is never consulted.
-/

namespace NbaStats

/-- `percentile(sorted_list, pct)` from the source: linear-interpolated
percentile over an already sorted list.  Returns `none` for the empty
list (Python `None`). -/
def percentile (sorted_list : List ℚ) (pct : ℚ) : Option ℚ :=
  let n := sorted_list.length
  if n = 0 then none
  else if n = 1 then some (sorted_list.getD 0 0)
  else
    let index : ℚ := ((n : ℚ) - 1) * pct
    let lower_idx : ℤ := Int.floor index
    let upper_idx : ℤ := Int.ceil index
    if lower_idx = upper_idx then some (sorted_list.getD lower_idx.toNat 0)
    else
      let lower_val := sorted_list.getD lower_idx.toNat 0
      let upper_val := sorted_list.getD upper_idx.toNat 0
      let frac := index - (lower_idx : ℚ)
      some (lower_val + (upper_val - lower_val) * frac)

/-- The rational quantity whose square root `lower_semideviation(points)`
returns.  The source computes `semivariance = sum(squared_diffs) /
len(below_mean)` and returns `math.sqrt(semivariance)`; the two early
`return 0.0` branches coincide with `Real.sqrt 0 = 0`. -/
def lower_semivariance (points : List ℚ) : ℚ :=
  if points = [] then 0
  else
    let n := points.length
    let mu : ℚ := points.sum / n
    let below_mean := points.filter (fun p => p < mu)
    if below_mean.length ≤ 1 then 0
    else
      let squared_diffs := below_mean.map (fun p => (mu - p) ^ 2)
      squared_diffs.sum / below_mean.length

/-- The file-selection predicate of `parse_all_team_files`:
`filename.endswith(".txt") and len(filename) == 7`. -/
def isTeamFile (filename : List Char) : Bool :=
  ".txt".data.isSuffixOf filename && filename.length == 7

/-! ## Lemmas about `percentile` -/

lemma percentile_nil (p : ℚ) : percentile [] p = none := rfl

lemma percentile_singleton (x : ℚ) (p : ℚ) : percentile [x] p = some x := rfl

lemma percentile_of_two_le (l : List ℚ) (p : ℚ) (h2 : 2 ≤ l.length) :
    percentile l p =
      if (⌊((l.length : ℚ) - 1) * p⌋ : ℤ) = ⌈((l.length : ℚ) - 1) * p⌉ then
        some (l.getD (⌊((l.length : ℚ) - 1) * p⌋).toNat 0)
      else
        some (l.getD (⌊((l.length : ℚ) - 1) * p⌋).toNat 0 +
          (l.getD (⌈((l.length : ℚ) - 1) * p⌉).toNat 0 -
            l.getD (⌊((l.length : ℚ) - 1) * p⌋).toNat 0) *
          (((l.length : ℚ) - 1) * p - (⌊((l.length : ℚ) - 1) * p⌋ : ℤ))) := by
  unfold percentile
  rw [if_neg (by omega), if_neg (by omega)]

lemma percentile_idx_bounds (l : List ℚ) (p : ℚ) (hn : 1 ≤ l.length)
    (hp0 : 0 ≤ p) (hp1 : p ≤ 1) :
    0 ≤ ⌊((l.length : ℚ) - 1) * p⌋ ∧
    ⌊((l.length : ℚ) - 1) * p⌋ ≤ ⌈((l.length : ℚ) - 1) * p⌉ ∧
    ⌈((l.length : ℚ) - 1) * p⌉ ≤ (l.length : ℤ) - 1 := by
  have hn1 : (0 : ℚ) ≤ (l.length : ℚ) - 1 := by
    have : (1 : ℚ) ≤ (l.length : ℚ) := by exact_mod_cast hn
    linarith
  refine ⟨?_, Int.floor_le_ceil _, ?_⟩
  · exact Int.floor_nonneg.mpr (mul_nonneg hn1 hp0)
  · rw [Int.ceil_le]
    push_cast
    calc ((l.length : ℚ) - 1) * p ≤ ((l.length : ℚ) - 1) * 1 :=
          mul_le_mul_of_nonneg_left hp1 hn1
      _ = (l.length : ℚ) - 1 := mul_one _

lemma percentile_toNat_bounds (l : List ℚ) (p : ℚ) (hn : 1 ≤ l.length)
    (hp0 : 0 ≤ p) (hp1 : p ≤ 1) :
    (⌊((l.length : ℚ) - 1) * p⌋).toNat ≤ (⌈((l.length : ℚ) - 1) * p⌉).toNat ∧
    (⌈((l.length : ℚ) - 1) * p⌉).toNat ≤ l.length - 1 ∧
    (⌊((l.length : ℚ) - 1) * p⌋).toNat < l.length ∧
    (⌈((l.length : ℚ) - 1) * p⌉).toNat < l.length := by
  obtain ⟨h0, h1, h2⟩ := percentile_idx_bounds l p hn hp0 hp1
  omega

/-- C1: the percentile function returns `none` on the empty list, the sole
element on a singleton, `sorted[lo]` when `lo = hi`, and the linear
interpolation `sorted[lo] + (sorted[hi] - sorted[lo]) * (idx - lo)`
otherwise, where `idx = (n-1)*p`, `lo = ⌊idx⌋`, `hi = ⌈idx⌉`; in
particular `percentile [10,20,30,40] 0.1 = 13`, `percentile [10,20] 0.5 =
15`, and `percentile [10] p = 10` for any `p`. -/
theorem percentile_spec (l : List ℚ) (p : ℚ) (hs : l.Sorted (· ≤ ·))
    (hp0 : 0 ≤ p) (hp1 : p ≤ 1) :
    percentile [] p = none
  ∧ (∀ x : ℚ, percentile [x] p = some x)
  ∧ (2 ≤ l.length →
      ((⌊((l.length : ℚ) - 1) * p⌋ : ℤ) = ⌈((l.length : ℚ) - 1) * p⌉ →
        percentile l p = l[(⌊((l.length : ℚ) - 1) * p⌋).toNat]?)
    ∧ ((⌊((l.length : ℚ) - 1) * p⌋ : ℤ) ≠ ⌈((l.length : ℚ) - 1) * p⌉ →
        ∃ lv uv, l[(⌊((l.length : ℚ) - 1) * p⌋).toNat]? = some lv
          ∧ l[(⌈((l.length : ℚ) - 1) * p⌉).toNat]? = some uv
          ∧ percentile l p =
              some (lv + (uv - lv) *
                (((l.length : ℚ) - 1) * p - (⌊((l.length : ℚ) - 1) * p⌋ : ℤ)))))
  ∧ percentile [10, 20, 30, 40] (1/10) = some 13
  ∧ percentile [10, 20] (1/2) = some 15 := by
  refine ⟨percentile_nil p, fun x => percentile_singleton x p, fun h2 => ?_, ?_, ?_⟩
  · obtain ⟨hle, hlast, hlo, hhi⟩ := percentile_toNat_bounds l p (by omega) hp0 hp1
    constructor
    · intro heq
      rw [percentile_of_two_le l p h2, if_pos heq,
        List.getD_eq_getElem?_getD, List.getElem?_eq_getElem hlo]
      rfl
    · intro hne
      refine ⟨l.getD (⌊((l.length : ℚ) - 1) * p⌋).toNat 0,
        l.getD (⌈((l.length : ℚ) - 1) * p⌉).toNat 0, ?_, ?_, ?_⟩
      · rw [List.getD_eq_getElem?_getD, List.getElem?_eq_getElem hlo]; rfl
      · rw [List.getD_eq_getElem?_getD, List.getElem?_eq_getElem hhi]; rfl
      · rw [percentile_of_two_le l p h2, if_neg hne]
  · unfold percentile
    norm_num [show ⌈(3:ℚ)/10⌉ = 1 from by rw [Int.ceil_eq_iff] <;> norm_num]
  · unfold percentile
    norm_num [show ⌈(1:ℚ)/2⌉ = 1 from by rw [Int.ceil_eq_iff] <;> norm_num,
      show ⌊(1:ℚ)/2⌋ = 0 from by rw [Int.floor_eq_iff] <;> norm_num]

/-- Closed-form instance of `percentile_spec`. -/
theorem percentile_spec_witness :
    percentile [10, 20, 30, 40] (1/10) = some 13 ∧ percentile [10, 20] (1/2) = some 15 :=
  ⟨(percentile_spec [10, 20, 30, 40] (1/10)
      (by norm_num [List.sorted_cons]) (by norm_num)
      (by norm_num)).2.2.2.1,
   (percentile_spec [10, 20] (1/2)
      (by norm_num [List.sorted_cons]) (by norm_num)
      (by norm_num)).2.2.2.2⟩

lemma sorted_getD_mono (l : List ℚ) (hs : l.Sorted (· ≤ ·)) {i j : ℕ}
    (hij : i ≤ j) (hj : j < l.length) : l.getD i 0 ≤ l.getD j 0 := by
  have hi : i < l.length := lt_of_le_of_lt hij hj
  rw [List.getD_eq_getElem?_getD, List.getElem?_eq_getElem hi,
    List.getD_eq_getElem?_getD, List.getElem?_eq_getElem hj]
  have := @List.Sorted.rel_get_of_le ℚ (· ≤ ·) _ l hs ⟨i, hi⟩ ⟨j, hj⟩
    (Fin.mk_le_mk.mpr hij)
  simpa using this

/-- C9: for a non-empty sorted list and a fraction `0 ≤ p ≤ 1`, the
interpolation indices of `percentile` satisfy
`0 ≤ ⌊(n-1)p⌋ ≤ ⌈(n-1)p⌉ ≤ n-1`, so both list accesses are in bounds, and
the returned value lies between the first and the last element. -/
theorem percentile_indices_in_bounds (l : List ℚ) (p : ℚ) (hne : l ≠ [])
    (hs : l.Sorted (· ≤ ·)) (hp0 : 0 ≤ p) (hp1 : p ≤ 1) :
    0 ≤ ⌊((l.length : ℚ) - 1) * p⌋
  ∧ ⌊((l.length : ℚ) - 1) * p⌋ ≤ ⌈((l.length : ℚ) - 1) * p⌉
  ∧ ⌈((l.length : ℚ) - 1) * p⌉ ≤ (l.length : ℤ) - 1
  ∧ ∃ v, percentile l p = some v ∧ l.getD 0 0 ≤ v ∧ v ≤ l.getD (l.length - 1) 0 := by
  have hn : 1 ≤ l.length := List.length_pos.mpr hne
  obtain ⟨hb0, hb1, hb2⟩ := percentile_idx_bounds l p hn hp0 hp1
  refine ⟨hb0, hb1, hb2, ?_⟩
  rcases Nat.lt_or_ge l.length 2 with h1 | h2
  · have hlen : l.length = 1 := by omega
    obtain ⟨x, rfl⟩ : ∃ x, l = [x] := by
      match l, hlen with
      | [x], _ => exact ⟨x, rfl⟩
    exact ⟨x, percentile_singleton x p, le_refl x, le_refl x⟩
  · obtain ⟨hle, hlast, hlo, hhi⟩ := percentile_toNat_bounds l p hn hp0 hp1
    set idx : ℚ := ((l.length : ℚ) - 1) * p with hidx
    have hfirst_lo : l.getD 0 0 ≤ l.getD (⌊idx⌋).toNat 0 :=
      sorted_getD_mono l hs (Nat.zero_le _) hlo
    have hlo_last : l.getD (⌊idx⌋).toNat 0 ≤ l.getD (l.length - 1) 0 :=
      sorted_getD_mono l hs (by omega) (by omega)
    have hfirst_hi : l.getD 0 0 ≤ l.getD (⌈idx⌉).toNat 0 :=
      sorted_getD_mono l hs (Nat.zero_le _) hhi
    have hhi_last : l.getD (⌈idx⌉).toNat 0 ≤ l.getD (l.length - 1) 0 :=
      sorted_getD_mono l hs (by omega) (by omega)
    rw [percentile_of_two_le l p h2]
    by_cases heq : (⌊idx⌋ : ℤ) = ⌈idx⌉
    · rw [if_pos heq]
      exact ⟨_, rfl, hfirst_lo, hlo_last⟩
    · rw [if_neg heq]
      refine ⟨_, rfl, ?_, ?_⟩
      · have hlu : l.getD (⌊idx⌋).toNat 0 ≤ l.getD (⌈idx⌉).toNat 0 :=
          sorted_getD_mono l hs hle hhi
        have hf0 : 0 ≤ idx - (⌊idx⌋ : ℚ) := by
          have := Int.floor_le idx; linarith
        nlinarith [hfirst_lo]
      · have hlu : l.getD (⌊idx⌋).toNat 0 ≤ l.getD (⌈idx⌉).toNat 0 :=
          sorted_getD_mono l hs hle hhi
        have hf1 : idx - (⌊idx⌋ : ℚ) ≤ 1 := by
          have := Int.lt_floor_add_one idx; linarith
        nlinarith [hhi_last]

/-- Closed-form instance of `percentile_indices_in_bounds`. -/
theorem percentile_indices_in_bounds_witness :
    0 ≤ ⌊((([10, 20, 30, 40] : List ℚ).length : ℚ) - 1) * (1/10)⌋
  ∧ ⌊((([10, 20, 30, 40] : List ℚ).length : ℚ) - 1) * (1/10)⌋ ≤
      ⌈((([10, 20, 30, 40] : List ℚ).length : ℚ) - 1) * (1/10)⌉
  ∧ ⌈((([10, 20, 30, 40] : List ℚ).length : ℚ) - 1) * (1/10)⌉ ≤
      (([10, 20, 30, 40] : List ℚ).length : ℤ) - 1
  ∧ ∃ v, percentile [10, 20, 30, 40] (1/10) = some v
      ∧ ([10, 20, 30, 40] : List ℚ).getD 0 0 ≤ v
      ∧ v ≤ ([10, 20, 30, 40] : List ℚ).getD (([10, 20, 30, 40] : List ℚ).length - 1) 0 :=
  percentile_indices_in_bounds [10, 20, 30, 40] (1/10) (List.cons_ne_nil _ _)
    (by norm_num [List.sorted_cons]) (by norm_num) (by norm_num)

/-! ## Lemmas about `lower_semivariance` -/

lemma lower_semivariance_nil : lower_semivariance [] = 0 := rfl

lemma lower_semivariance_of_small (points : List ℚ) (hne : points ≠ [])
    (hB : (points.filter (fun x => x < points.sum / points.length)).length ≤ 1) :
    lower_semivariance points = 0 := by
  unfold lower_semivariance
  rw [if_neg hne, if_pos hB]

lemma lower_semivariance_of_two_le (points : List ℚ) (hne : points ≠ [])
    (hB : ¬ (points.filter (fun x => x < points.sum / points.length)).length ≤ 1) :
    lower_semivariance points =
      ((points.filter (fun x => x < points.sum / points.length)).map
        (fun b => (points.sum / points.length - b) ^ 2)).sum /
      (points.filter (fun x => x < points.sum / points.length)).length := by
  unfold lower_semivariance
  rw [if_neg hne, if_neg hB]

/-- C2: the semideviation returns `0` for the empty list; otherwise with
`mu` the mean of all points and `B` the points strictly below `mu`, it
returns `0` when `|B| ≤ 1` and `√(Σ_{b ∈ B} (mu-b)² / |B|)` otherwise
(divisor `|B|`, not `|B|-1`); in particular `[10,10,10] ↦ 0`,
`[5,15] ↦ 0` and `[5,10,15,20] ↦ √31.25`. -/
theorem lower_semideviation_spec (points : List ℚ) :
    (points = [] → Real.sqrt (lower_semivariance points) = 0)
  ∧ (points ≠ [] →
      ((points.filter (fun x => x < points.sum / points.length)).length ≤ 1 →
        Real.sqrt (lower_semivariance points) = 0)
    ∧ (2 ≤ (points.filter (fun x => x < points.sum / points.length)).length →
        Real.sqrt (lower_semivariance points) =
          Real.sqrt ((((points.filter (fun x => x < points.sum / points.length)).map
              (fun b => (points.sum / points.length - b) ^ 2)).sum /
            (points.filter (fun x => x < points.sum / points.length)).length : ℚ))))
  ∧ Real.sqrt (lower_semivariance [10, 10, 10]) = 0
  ∧ Real.sqrt (lower_semivariance [5, 15]) = 0
  ∧ Real.sqrt (lower_semivariance [5, 10, 15, 20]) = Real.sqrt (31.25 : ℝ) := by
  refine ⟨?_, fun hne => ⟨?_, ?_⟩, ?_, ?_, ?_⟩
  · rintro rfl
    rw [lower_semivariance_nil]
    simp [Real.sqrt_zero]
  · intro hB
    rw [lower_semivariance_of_small points hne hB]
    simp [Real.sqrt_zero]
  · intro hB
    rw [lower_semivariance_of_two_le points hne (by omega)]
  · rw [show lower_semivariance [10, 10, 10] = 0 from by
      unfold lower_semivariance; norm_num [List.filter, List.cons_ne_nil]]
    simp [Real.sqrt_zero]
  · rw [show lower_semivariance [5, 15] = 0 from by
      unfold lower_semivariance; norm_num [List.filter, List.cons_ne_nil]]
    simp [Real.sqrt_zero]
  · rw [show lower_semivariance [5, 10, 15, 20] = 125/4 from by
      unfold lower_semivariance; norm_num [List.filter, List.cons_ne_nil]]
    norm_num

/-- Closed-form instance of `lower_semideviation_spec`. -/
theorem lower_semideviation_spec_witness :
    Real.sqrt (lower_semivariance ([] : List ℚ)) = 0
  ∧ Real.sqrt (lower_semivariance [5, 15]) = 0 :=
  ⟨(lower_semideviation_spec []).1 rfl,
   ((lower_semideviation_spec [5, 15]).2.1 (List.cons_ne_nil _ _)).1
     (by norm_num [List.filter])⟩

/-! ## Data model of the aggregator -/

/-- Result of `datetime.strptime(date_str, "%m/%d/%Y")`, compared the way
`datetime` objects compare (chronologically, i.e. lexicographically on
year, month, day). -/
structure Date where
  year : ℤ
  month : ℕ
  day : ℕ
deriving DecidableEq, Repr

instance : LT Date :=
  ⟨fun a b => a.year < b.year ∨ (a.year = b.year ∧
    (a.month < b.month ∨ (a.month = b.month ∧ a.day < b.day)))⟩

instance (a b : Date) : Decidable (a < b) :=
  inferInstanceAs (Decidable (a.year < b.year ∨ (a.year = b.year ∧
    (a.month < b.month ∨ (a.month = b.month ∧ a.day < b.day)))))

/-- One entry of the `player_data` defaultdict. -/
structure PlayerState where
  points : List ℚ
  most_recent_date : Option Date
  current_team : Option String
deriving DecidableEq, Repr

/-- The defaultdict default value `{"points": [], "most_recent_date":
None, "current_team": None}`. -/
def PlayerState.initial : PlayerState := ⟨[], none, none⟩

/-- A validated `(player, points, date, team)` tuple, the data the body of
the row loop extracts from a row that passes all checks. -/
structure GameRecord where
  player : String
  points : ℚ
  date : Date
  team : String
deriving DecidableEq, Repr

/-- The `player_data` mapping, as an insertion-ordered association list
(Python dicts preserve insertion order, which `main` later iterates). -/
abbrev PlayerMap := List (String × PlayerState)

/-- Read through the defaultdict: a missing key yields the default state. -/
def getState (m : PlayerMap) (name : String) : PlayerState :=
  (m.lookup name).getD PlayerState.initial

/-- Write through the defaultdict: mutating the state stored at `name`,
materialising the key at the end of the insertion order if absent. -/
def setState (m : PlayerMap) (name : String) (s : PlayerState) : PlayerMap :=
  if (m.lookup name).isSome then
    m.map (fun kv => if kv.1 = name then (name, s) else kv)
  else
    m ++ [(name, s)]

/-- Lines 54–61 of the source: append the record's points to the player's
sequence unconditionally, then replace `most_recent_date` and
`current_team` exactly when no date is stored yet or the record's date is
strictly newer. -/
def foldRecord (m : PlayerMap) (r : GameRecord) : PlayerMap :=
  let st := getState m r.player
  let st1 : PlayerState := { st with points := st.points ++ [r.points] }
  let st2 : PlayerState :=
    match st1.most_recent_date with
    | none => { st1 with most_recent_date := some r.date, current_team := some r.team }
    | some d =>
        if d < r.date then
          { st1 with most_recent_date := some r.date, current_team := some r.team }
        else st1
  setState m r.player st2

/-- Folding a whole encounter-ordered sequence of valid records. -/
def foldRecords (m : PlayerMap) (recs : List GameRecord) : PlayerMap :=
  recs.foldl foldRecord m

/-- One `csv.DictReader` row restricted to the four columns the program
reads; `none` models a missing column. -/
structure Row where
  player : Option String
  pts : Option String
  date : Option String
  team : Option String

/-- Lines 33–61 of the source, the body of the row loop: extract the four
fields, skip the row when one is missing or empty (Python truthiness),
skip when `float(pts_str)` or `strptime(date_str, ...)` raises
(modelled by the abstract parsers `pf`/`pd` returning `none`), and
otherwise fold the validated record into the map. -/
def processRow (pf : String → Option ℚ) (pd : String → Option Date)
    (m : PlayerMap) (row : Row) : PlayerMap :=
  match row.player, row.pts, row.date, row.team with
  | some player_name, some pts_str, some date_str, some team_str =>
    if player_name = "" ∨ pts_str = "" ∨ date_str = "" ∨ team_str = "" then m
    else
      match pf pts_str with
      | none => m
      | some points =>
        match pd date_str with
        | none => m
        | some game_date =>
            foldRecord m ⟨player_name, points, game_date, team_str⟩
  | _, _, _, _ => m

/-- `parse_all_team_files(directory)`: the directory listing is a list of
`(filename, rows)` pairs in `os.listdir` order; only files passing the
filename predicate are parsed, and every row of every such file is folded
into the accumulating map. -/
def parse_all_team_files (pf : String → Option ℚ) (pd : String → Option Date)
    (files : List (String × List Row)) : PlayerMap :=
  files.foldl
    (fun m file =>
      if isTeamFile file.1.data then file.2.foldl (processRow pf pd) m else m)
    []

/-! ## Report builder (`main`, lines 112–133) -/

/-- One tuple of the `results` list in `main`.  The irrational
`std_dev = math.sqrt(semivariance)` is represented by the rational
`semivar` under the root, and the coefficient of variation (a further
pure function of `semivar` and `mean_pts`, line 123) is expressed at the
statement level. -/
structure PlayerStatRow where
  player : String
  team : Option String
  mean_pts : ℚ
  semivar : ℚ
  p10 : Option ℚ
  p20 : Option ℚ
  p30 : Option ℚ
  games : ℕ
deriving DecidableEq, Repr

/-- The body of the per-player loop of `main`: skip a player with zero
games, otherwise compute the mean, the semivariance (whose root is the
reported downside deviation), and the three percentiles of the
ascending-sorted points (Python `sorted` is stable ascending). -/
def buildRow (player : String) (info : PlayerState) : Option PlayerStatRow :=
  let pts_list := info.points
  let games_played := pts_list.length
  if games_played = 0 then none
  else
    let mean_pts : ℚ := pts_list.sum / games_played
    let sorted_pts := pts_list.mergeSort (fun a b => a ≤ b)
    some
      { player := player
        team := info.current_team
        mean_pts := mean_pts
        semivar := lower_semivariance pts_list
        p10 := percentile sorted_pts (1/10)
        p20 := percentile sorted_pts (2/10)
        p30 := percentile sorted_pts (3/10)
        games := games_played }

/-- The `results` list in per-player iteration order, before sorting. -/
def reportRows (m : PlayerMap) : List PlayerStatRow :=
  m.filterMap (fun kv => buildRow kv.1 kv.2)

/-- Line 133, `results.sort(key=lambda x: x[3])`: a stable sort on
`std_dev = √semivar`; since `√` is strictly monotone on the nonnegative
semivariances this is exactly a stable sort on `semivar`. -/
def buildReport (m : PlayerMap) : List PlayerStatRow :=
  (reportRows m).mergeSort (fun a b => a.semivar ≤ b.semivar)

/-! ## C4: the file-selection predicate -/

/-- C4: the predicate accepts a filename iff its length is exactly 7 and
it ends in ".txt", equivalently iff it is three arbitrary characters
followed by ".txt" (no letter check); "ATLX.txt" (length 8) is rejected
and "ATL.txt" (length 7) accepted. -/
theorem file_selection_spec (filename : List Char) :
    (isTeamFile filename = true ↔ filename.length = 7 ∧ ".txt".data <:+ filename)
  ∧ (isTeamFile filename = true ↔ ∃ a b c : Char, filename = [a, b, c] ++ ".txt".data)
  ∧ isTeamFile "ATLX.txt".data = false
  ∧ isTeamFile "ATL.txt".data = true := by
  have h1 : isTeamFile filename = true ↔ filename.length = 7 ∧ ".txt".data <:+ filename := by
    unfold isTeamFile
    rw [Bool.and_eq_true, List.isSuffixOf_iff_suffix, beq_iff_eq]
    tauto
  refine ⟨h1, ?_, by decide, by decide⟩
  rw [h1]
  constructor
  · rintro ⟨hlen, t, rfl⟩
    have htl : t.length = 3 := by
      simpa [String.data] using hlen
    obtain ⟨a, b, c, rfl⟩ : ∃ a b c, t = [a, b, c] := by
      match t, htl with
      | [a, b, c], _ => exact ⟨a, b, c, rfl⟩
    exact ⟨a, b, c, rfl⟩
  · rintro ⟨a, b, c, rfl⟩
    exact ⟨rfl, [a, b, c], rfl⟩

/-- Closed-form instance of `file_selection_spec`. -/
theorem file_selection_spec_witness :
    isTeamFile "ATL.txt".data = true ∧ isTeamFile "ATLX.txt".data = false :=
  ⟨((file_selection_spec "ATL.txt".data).1).mpr (by decide),
   (file_selection_spec "ATLX.txt".data).2.2.1⟩

/-! ## Lemmas about the player map -/

lemma lookup_map_update (m : PlayerMap) (name : String) (s : PlayerState) :
    (m.map (fun kv => if kv.1 = name then (name, s) else kv)).lookup name =
      (m.lookup name).map (fun _ => s) := by
  induction m with
  | nil => rfl
  | cons kv tl ih =>
    obtain ⟨k, v⟩ := kv
    by_cases hk : k = name
    · subst hk
      simp [List.lookup_cons]
    · have hb : (name == k) = false := beq_eq_false_iff_ne.mpr (Ne.symm hk)
      simp [List.lookup_cons, hk, hb, ih]

lemma lookup_map_update_ne (m : PlayerMap) (name : String) (s : PlayerState)
    (k : String) (h : k ≠ name) :
    (m.map (fun kv => if kv.1 = name then (name, s) else kv)).lookup k =
      m.lookup k := by
  induction m with
  | nil => rfl
  | cons kv tl ih =>
    obtain ⟨k0, v⟩ := kv
    by_cases hk : k0 = name
    · subst hk
      have hb : (k == k0) = false := beq_eq_false_iff_ne.mpr h
      simp [List.lookup_cons, hb, ih]
    · by_cases hk2 : k0 = k
      · subst hk2
        simp [List.lookup_cons, hk, ih]
      · have hb : (k == k0) = false := beq_eq_false_iff_ne.mpr (Ne.symm hk2)
        simp [List.lookup_cons, hk, hb, ih]

lemma getState_setState_same (m : PlayerMap) (name : String) (s : PlayerState) :
    getState (setState m name s) name = s := by
  unfold getState setState
  by_cases h : (m.lookup name).isSome
  · rw [if_pos h, lookup_map_update]
    obtain ⟨v, hv⟩ := Option.isSome_iff_exists.mp h
    rw [hv]
    rfl
  · rw [if_neg h, List.lookup_append]
    rw [Option.not_isSome_iff_eq_none] at h
    rw [h]
    simp

lemma getState_setState_ne (m : PlayerMap) (name : String) (s : PlayerState)
    (k : String) (h : k ≠ name) :
    getState (setState m name s) k = getState m k := by
  unfold getState setState
  by_cases hs : (m.lookup name).isSome
  · rw [if_pos hs, lookup_map_update_ne m name s k h]
  · rw [if_neg hs, List.lookup_append]
    have h1 : ([(name, s)] : PlayerMap).lookup k = none := by
      have hb : (k == name) = false := beq_eq_false_iff_ne.mpr h
      simp [List.lookup_cons, hb]
    rw [h1]
    cases hv : m.lookup k <;> rfl

lemma mem_setState (m : PlayerMap) (name : String) (s : PlayerState)
    (kv : String × PlayerState) (h : kv ∈ setState m name s) :
    kv ∈ m ∨ kv = (name, s) := by
  unfold setState at h
  by_cases hs : (m.lookup name).isSome
  · rw [if_pos hs] at h
    obtain ⟨kv0, hkv0, heq⟩ := List.mem_map.mp h
    by_cases hk : kv0.1 = name
    · right; rw [if_pos hk] at heq; exact heq.symm
    · left; rw [if_neg hk] at heq; exact heq ▸ hkv0
  · rw [if_neg hs] at h
    rcases List.mem_append.mp h with h1 | h1
    · exact Or.inl h1
    · right; simpa using h1

/-! ## Lemmas about `foldRecord` -/

lemma foldRecord_points_self (m : PlayerMap) (r : GameRecord) :
    (getState (foldRecord m r) r.player).points =
      (getState m r.player).points ++ [r.points] := by
  unfold foldRecord
  rw [getState_setState_same]
  cases h : (getState m r.player).most_recent_date <;> simp [h]
  split <;> rfl

lemma foldRecord_other (m : PlayerMap) (r : GameRecord) (q : String)
    (h : q ≠ r.player) : getState (foldRecord m r) q = getState m q := by
  unfold foldRecord
  exact getState_setState_ne m r.player _ q h

lemma foldRecord_update_of_none (m : PlayerMap) (r : GameRecord)
    (h : (getState m r.player).most_recent_date = none) :
    (getState (foldRecord m r) r.player).most_recent_date = some r.date ∧
    (getState (foldRecord m r) r.player).current_team = some r.team := by
  unfold foldRecord
  rw [getState_setState_same]
  simp [h]

lemma foldRecord_update_of_newer (m : PlayerMap) (r : GameRecord) (d : Date)
    (h : (getState m r.player).most_recent_date = some d) (hlt : d < r.date) :
    (getState (foldRecord m r) r.player).most_recent_date = some r.date ∧
    (getState (foldRecord m r) r.player).current_team = some r.team := by
  unfold foldRecord
  rw [getState_setState_same]
  simp [h, hlt]

lemma foldRecord_keep (m : PlayerMap) (r : GameRecord) (d : Date)
    (h : (getState m r.player).most_recent_date = some d) (hlt : ¬ d < r.date) :
    (getState (foldRecord m r) r.player).most_recent_date = some d ∧
    (getState (foldRecord m r) r.player).current_team =
      (getState m r.player).current_team := by
  unfold foldRecord
  rw [getState_setState_same]
  simp [h, hlt]

lemma foldRecords_points (m : PlayerMap) (recs : List GameRecord) (name : String) :
    (getState (foldRecords m recs) name).points =
      (getState m name).points ++
        ((recs.filter (fun r => r.player == name)).map GameRecord.points) := by
  induction recs generalizing m with
  | nil => simp [foldRecords]
  | cons r tl ih =>
    rw [foldRecords, List.foldl_cons, ← foldRecords, ih]
    by_cases h : r.player = name
    · rw [List.filter_cons_of_pos (by simpa using h)]
      rw [← h, foldRecord_points_self]
      simp
    · rw [List.filter_cons_of_neg (by simpa using h)]
      rw [foldRecord_other m r name (Ne.symm h)]

/-- C3: folding a record appends its points to its player's sequence
unconditionally (so after folding a record sequence from the empty map a
player's points are exactly the points of that player's records in
encounter order, and `gamesPlayed` is their number), while
`most_recent_date` and `current_team` are both replaced exactly when the
record's date is strictly newer than the stored date or no date is stored
yet; a record whose date is not strictly newer (in particular an equal
date) leaves `current_team` unchanged.  Two records for one player dated
01/01/2024 (team "A") and 01/05/2024 (team "B") yield points `[7, 9]`,
hence `gamesPlayed = 2`, and `current_team = "B"`. -/
theorem aggregator_fold_spec (m : PlayerMap) (r : GameRecord)
    (recs : List GameRecord) (name : String) :
    (getState (foldRecord m r) r.player).points
        = (getState m r.player).points ++ [r.points]
  ∧ (∀ q : String, q ≠ r.player → getState (foldRecord m r) q = getState m q)
  ∧ ((getState m r.player).most_recent_date = none →
      (getState (foldRecord m r) r.player).most_recent_date = some r.date
      ∧ (getState (foldRecord m r) r.player).current_team = some r.team)
  ∧ (∀ d : Date, (getState m r.player).most_recent_date = some d → d < r.date →
      (getState (foldRecord m r) r.player).most_recent_date = some r.date
      ∧ (getState (foldRecord m r) r.player).current_team = some r.team)
  ∧ (∀ d : Date, (getState m r.player).most_recent_date = some d → ¬ d < r.date →
      (getState (foldRecord m r) r.player).most_recent_date = some d
      ∧ (getState (foldRecord m r) r.player).current_team
          = (getState m r.player).current_team)
  ∧ (getState (foldRecords [] recs) name).points
      = ((recs.filter (fun r0 => r0.player == name)).map GameRecord.points)
  ∧ getState (foldRecords []
        [⟨"P", 7, ⟨2024, 1, 1⟩, "A"⟩, ⟨"P", 9, ⟨2024, 1, 5⟩, "B"⟩]) "P"
      = ⟨[7, 9], some ⟨2024, 1, 5⟩, some "B"⟩ := by
  refine ⟨foldRecord_points_self m r,
    fun q hq => foldRecord_other m r q hq,
    fun h => foldRecord_update_of_none m r h,
    fun d h hd => foldRecord_update_of_newer m r d h hd,
    fun d h hd => foldRecord_keep m r d h hd,
    ?_, by decide⟩
  have := foldRecords_points [] recs name
  simpa [getState, PlayerState.initial] using this

/-- Closed-form instance of `aggregator_fold_spec`. -/
theorem aggregator_fold_spec_witness :
    (getState (foldRecord [] ⟨"P", 7, ⟨2024, 1, 1⟩, "A"⟩) "P").most_recent_date
        = some ⟨2024, 1, 1⟩
  ∧ (getState (foldRecord [] ⟨"P", 7, ⟨2024, 1, 1⟩, "A"⟩) "P").current_team
        = some "A" :=
  (aggregator_fold_spec [] ⟨"P", 7, ⟨2024, 1, 1⟩, "A"⟩ [] "P").2.2.1 rfl

/-- C6: a data row with a missing or empty `PLAYER`, `PTS`, `GAME DATE` or
`TEAM` field, or whose `PTS` fails to parse as a float, or whose
`GAME DATE` fails to parse under `MM/DD/YYYY`, is skipped silently: the
per-player map after processing the row is exactly the map before it (no
record emitted, no partial update, no error). -/
theorem row_skip_spec (pf : String → Option ℚ) (pd : String → Option Date)
    (m : PlayerMap) (row : Row)
    (h : row.player = none ∨ row.player = some "" ∨ row.pts = none ∨ row.pts = some ""
       ∨ row.date = none ∨ row.date = some "" ∨ row.team = none ∨ row.team = some ""
       ∨ (∀ s, row.pts = some s → pf s = none)
       ∨ (∀ s, row.date = some s → pd s = none)) :
    processRow pf pd m row = m := by
  obtain ⟨op, os, od, ot⟩ := row
  rcases op with _ | pname
  · rfl
  rcases os with _ | psts
  · rfl
  rcases od with _ | pdate
  · rfl
  rcases ot with _ | pteam
  · rfl
  show (if pname = "" ∨ psts = "" ∨ pdate = "" ∨ pteam = "" then m
    else match pf psts with
      | none => m
      | some points =>
        match pd pdate with
        | none => m
        | some game_date => foldRecord m ⟨pname, points, game_date, pteam⟩) = m
  by_cases he : pname = "" ∨ psts = "" ∨ pdate = "" ∨ pteam = ""
  · rw [if_pos he]
  · rw [if_neg he]
    simp only [Row.player, Row.pts, Row.date, Row.team, Option.some.injEq,
      reduceCtorEq, false_or] at h
    rcases h with h | h | h | h | h | h
    · exact absurd h (fun hh => he (Or.inl hh))
    · exact absurd h (fun hh => he (Or.inr (Or.inl hh)))
    · exact absurd h (fun hh => he (Or.inr (Or.inr (Or.inl hh))))
    · exact absurd h (fun hh => he (Or.inr (Or.inr (Or.inr hh))))
    · rw [h psts rfl]
    · cases hp : pf psts with
      | none => rfl
      | some v => rw [h pdate rfl]

/-- Closed-form instance of `row_skip_spec`: a row whose date fails to
parse changes nothing, even though its points would parse. -/
theorem row_skip_spec_witness :
    processRow (fun _ => some 7) (fun _ => none) []
      ⟨some "Player", some "7", some "bad-date", some "ATL"⟩ = [] :=
  row_skip_spec (fun _ => some 7) (fun _ => none) []
    ⟨some "Player", some "7", some "bad-date", some "ATL"⟩
    (Or.inr (Or.inr (Or.inr (Or.inr (Or.inr (Or.inr (Or.inr (Or.inr
      (Or.inr (fun s _ => rfl))))))))))

/-! ## Map invariants established by the aggregation -/

/-- Invariant of every materialised `player_data` entry: at least one
point has been appended, and a date and a team are stored. -/
def EntryOk (kv : String × PlayerState) : Prop :=
  kv.2.points ≠ [] ∧ kv.2.most_recent_date.isSome ∧ kv.2.current_team.isSome

lemma lookup_some_mem (m : PlayerMap) (name : String) (v : PlayerState)
    (h : m.lookup name = some v) : (name, v) ∈ m := by
  obtain ⟨l₁, l₂, rfl, -⟩ := List.lookup_eq_some_iff.mp h
  exact List.mem_append.mpr (Or.inr (List.mem_cons_self _ _))

lemma getState_initial_or_mem (m : PlayerMap) (name : String) :
    getState m name = PlayerState.initial ∨ (name, getState m name) ∈ m := by
  unfold getState
  cases h : m.lookup name with
  | none => exact Or.inl rfl
  | some v => exact Or.inr (lookup_some_mem m name v h)

lemma entryOk_foldRecord (m : PlayerMap) (r : GameRecord)
    (hm : ∀ kv ∈ m, EntryOk kv) : ∀ kv ∈ foldRecord m r, EntryOk kv := by
  intro kv hkv
  unfold foldRecord at hkv
  rcases mem_setState _ _ _ _ hkv with h | h
  · exact hm kv h
  · subst h
    unfold EntryOk
    cases hd : (getState m r.player).most_recent_date with
    | none => simp [hd]
    | some d =>
      have hteam : (getState m r.player).current_team.isSome := by
        rcases getState_initial_or_mem m r.player with h0 | h0
        · rw [h0] at hd
          simp [PlayerState.initial] at hd
        · exact (hm _ h0).2.2
      by_cases hlt : d < r.date <;> simp [hd, hlt, hteam]

lemma entryOk_processRow (pf : String → Option ℚ) (pd : String → Option Date)
    (m : PlayerMap) (row : Row) (hm : ∀ kv ∈ m, EntryOk kv) :
    ∀ kv ∈ processRow pf pd m row, EntryOk kv := by
  obtain ⟨op, os, od, ot⟩ := row
  rcases op with _ | pname; · exact hm
  rcases os with _ | psts; · exact hm
  rcases od with _ | pdate; · exact hm
  rcases ot with _ | pteam; · exact hm
  show ∀ kv ∈ (if pname = "" ∨ psts = "" ∨ pdate = "" ∨ pteam = "" then m
    else match pf psts with
      | none => m
      | some points =>
        match pd pdate with
        | none => m
        | some game_date => foldRecord m ⟨pname, points, game_date, pteam⟩), EntryOk kv
  by_cases he : pname = "" ∨ psts = "" ∨ pdate = "" ∨ pteam = ""
  · rw [if_pos he]; exact hm
  · rw [if_neg he]
    cases pf psts with
    | none => exact hm
    | some points =>
      cases pd pdate with
      | none => exact hm
      | some game_date => exact entryOk_foldRecord m _ hm

lemma entryOk_parse_all (pf : String → Option ℚ) (pd : String → Option Date)
    (files : List (String × List Row)) :
    ∀ kv ∈ parse_all_team_files pf pd files, EntryOk kv := by
  unfold parse_all_team_files
  suffices h : ∀ (m : PlayerMap), (∀ kv ∈ m, EntryOk kv) →
      ∀ kv ∈ files.foldl
        (fun m file =>
          if isTeamFile file.1.data then file.2.foldl (processRow pf pd) m else m)
        m, EntryOk kv by
    exact h [] (by simp)
  induction files with
  | nil => intro m hm; simpa using hm
  | cons f tl ih =>
    intro m hm
    rw [List.foldl_cons]
    apply ih
    by_cases hf : isTeamFile f.1.data
    · rw [if_pos hf]
      clear ih hf
      induction f.2 generalizing m with
      | nil => simpa using hm
      | cons row rows ihr =>
        rw [List.foldl_cons]
        exact ihr _ (entryOk_processRow pf pd m row hm)
    · rw [if_neg hf]; exact hm

/-! ## Lemmas about the report builder -/

lemma buildRow_of_ne_nil (player : String) (info : PlayerState)
    (h : info.points ≠ []) :
    buildRow player info = some
      { player := player
        team := info.current_team
        mean_pts := info.points.sum / info.points.length
        semivar := lower_semivariance info.points
        p10 := percentile (info.points.mergeSort (fun a b => a ≤ b)) (1/10)
        p20 := percentile (info.points.mergeSort (fun a b => a ≤ b)) (2/10)
        p30 := percentile (info.points.mergeSort (fun a b => a ≤ b)) (3/10)
        games := info.points.length } := by
  unfold buildRow
  rw [if_neg (by simpa using h)]

lemma percentile_isSome (l : List ℚ) (p : ℚ) (h : l ≠ []) :
    (percentile l p).isSome := by
  unfold percentile
  rw [if_neg (by simpa using h)]
  by_cases h1 : l.length = 1
  · rw [if_pos h1]; rfl
  · rw [if_neg h1]
    dsimp only
    split <;> rfl

lemma mem_reportRows (m : PlayerMap) (row : PlayerStatRow) :
    row ∈ reportRows m ↔ ∃ kv ∈ m, buildRow kv.1 kv.2 = some row := by
  unfold reportRows
  rw [List.mem_filterMap]

lemma mem_buildReport (m : PlayerMap) (row : PlayerStatRow) :
    row ∈ buildReport m ↔ row ∈ reportRows m := by
  unfold buildReport
  exact List.mem_mergeSort

/-- C8: every materialised entry of `parse_all_team_files` has a
non-empty points list, so `buildRow` never returns `none` on it (the
`games_played == 0` exclusion branch is unreachable) and every row of the
final report has `gamesPlayed ≥ 1`. -/
theorem games_played_positive (pf : String → Option ℚ) (pd : String → Option Date)
    (files : List (String × List Row)) :
    (∀ kv ∈ parse_all_team_files pf pd files, kv.2.points ≠ [])
  ∧ (∀ kv ∈ parse_all_team_files pf pd files, (buildRow kv.1 kv.2).isSome)
  ∧ (∀ row ∈ buildReport (parse_all_team_files pf pd files), 1 ≤ row.games) := by
  have hok := entryOk_parse_all pf pd files
  refine ⟨fun kv hkv => (hok kv hkv).1, fun kv hkv => ?_, fun row hrow => ?_⟩
  · rw [buildRow_of_ne_nil kv.1 kv.2 (hok kv hkv).1]
    rfl
  · obtain ⟨kv, hkv, hrow⟩ :=
      (mem_reportRows _ row).mp ((mem_buildReport _ row).mp hrow)
    rw [buildRow_of_ne_nil kv.1 kv.2 (hok kv hkv).1] at hrow
    obtain rfl := Option.some.inj hrow
    have := List.length_pos.mpr (hok kv hkv).1
    simpa using this

/-- Closed-form instance of `games_played_positive`. -/
theorem games_played_positive_witness :
    ("P", (⟨[7], some ⟨2024, 1, 1⟩, some "A"⟩ : PlayerState)).2.points ≠ [] :=
  (games_played_positive (fun _ => some 7) (fun _ => some ⟨2024, 1, 1⟩)
      [("ATL.txt", [⟨some "P", some "7", some "01/01/2024", some "A"⟩])]).1
    ("P", ⟨[7], some ⟨2024, 1, 1⟩, some "A"⟩) (by decide)

/-- C10: every row of the final report carries a team and all three
percentiles: `currentTeam` is set by the first valid record, and the
percentile calls never see an empty list, so the nullable fields are
never null in the output. -/
theorem report_fields_present (pf : String → Option ℚ) (pd : String → Option Date)
    (files : List (String × List Row)) :
    ∀ row ∈ buildReport (parse_all_team_files pf pd files),
      row.team.isSome ∧ row.p10.isSome ∧ row.p20.isSome ∧ row.p30.isSome := by
  have hok := entryOk_parse_all pf pd files
  intro row hrow
  obtain ⟨kv, hkv, hrow⟩ :=
    (mem_reportRows _ row).mp ((mem_buildReport _ row).mp hrow)
  rw [buildRow_of_ne_nil kv.1 kv.2 (hok kv hkv).1] at hrow
  obtain rfl := Option.some.inj hrow
  have hsort : kv.2.points.mergeSort (fun a b => a ≤ b) ≠ [] := by
    intro hnil
    have := List.mergeSort_perm kv.2.points (fun a b => a ≤ b)
    rw [hnil] at this
    exact (hok kv hkv).1 (List.Perm.nil_eq this).symm
  exact ⟨(hok kv hkv).2.2, percentile_isSome _ _ hsort,
    percentile_isSome _ _ hsort, percentile_isSome _ _ hsort⟩

/-- Closed-form instance of `report_fields_present`. -/
theorem report_fields_present_witness :
    (⟨"P", some "A", 7, 0, some 7, some 7, some 7, 1⟩ : PlayerStatRow).team.isSome
  ∧ (⟨"P", some "A", 7, 0, some 7, some 7, some 7, 1⟩ : PlayerStatRow).p10.isSome
  ∧ (⟨"P", some "A", 7, 0, some 7, some 7, some 7, 1⟩ : PlayerStatRow).p20.isSome
  ∧ (⟨"P", some "A", 7, 0, some 7, some 7, some 7, 1⟩ : PlayerStatRow).p30.isSome :=
  report_fields_present (fun _ => some 7) (fun _ => some ⟨2024, 1, 1⟩)
    [("ATL.txt", [⟨some "P", some "7", some "01/01/2024", some "A"⟩])]
    ⟨"P", some "A", 7, 0, some 7, some 7, some 7, 1⟩
    (by
      have hmap : parse_all_team_files (fun _ => some 7) (fun _ => some ⟨2024, 1, 1⟩)
          [("ATL.txt", [⟨some "P", some "7", some "01/01/2024", some "A"⟩])] =
          [("P", ⟨[7], some ⟨2024, 1, 1⟩, some "A"⟩)] := by decide
      have hbr : buildRow "P" ⟨[7], some ⟨2024, 1, 1⟩, some "A"⟩ =
          some ⟨"P", some "A", 7, 0, some 7, some 7, some 7, 1⟩ := by
        rw [buildRow_of_ne_nil _ _ (by simp)]
        norm_num [lower_semivariance, List.filter, percentile_singleton]
      rw [hmap, mem_buildReport, mem_reportRows]
      exact ⟨("P", ⟨[7], some ⟨2024, 1, 1⟩, some "A"⟩), by simp, hbr⟩)

/-! ## C5: the report ordering -/

lemma lower_semivariance_nonneg (points : List ℚ) :
    0 ≤ lower_semivariance points := by
  by_cases hne : points = []
  · rw [hne, lower_semivariance_nil]
  · by_cases hB : (points.filter (fun x => x < points.sum / points.length)).length ≤ 1
    · rw [lower_semivariance_of_small points hne hB]
    · rw [lower_semivariance_of_two_le points hne hB]
      apply div_nonneg
      · apply List.sum_nonneg
        intro x hx
        obtain ⟨b, _, rfl⟩ := List.mem_map.mp hx
        positivity
      · positivity

lemma buildRow_eq_none (player : String) (info : PlayerState)
    (h : info.points = []) : buildRow player info = none := by
  unfold buildRow
  rw [if_pos (by simp [h])]

lemma semivar_nonneg_of_mem_reportRows (m : PlayerMap) (row : PlayerStatRow)
    (h : row ∈ reportRows m) : 0 ≤ row.semivar := by
  obtain ⟨kv, hkv, hrow⟩ := (mem_reportRows m row).mp h
  by_cases hnil : kv.2.points = []
  · rw [buildRow_eq_none kv.1 kv.2 hnil] at hrow
    cases hrow
  · rw [buildRow_of_ne_nil kv.1 kv.2 hnil] at hrow
    obtain rfl := Option.some.inj hrow
    exact lower_semivariance_nonneg _

/-- Stability of the sort: filtering on a class of mutually tied elements
commutes with `mergeSort`. -/
lemma mergeSort_filter_stable {α : Type} (le : α → α → Bool) (l : List α)
    (p : α → Bool)
    (htrans : ∀ (a b c : α), le a b → le b c → le a c)
    (htotal : ∀ (a b : α), le a b || le b a)
    (hp : ∀ a b, a ∈ l → b ∈ l → p a → p b → le a b) :
    (l.mergeSort le).filter p = l.filter p := by
  have hsub : List.Sublist (l.filter p) l := List.filter_sublist l
  have hpair : (l.filter p).Pairwise (fun a b => le a b) := by
    refine List.pairwise_of_forall_mem_list ?_
    intro a ha b hb
    obtain ⟨ha1, ha2⟩ := List.mem_filter.mp ha
    obtain ⟨hb1, hb2⟩ := List.mem_filter.mp hb
    exact hp a b ha1 hb1 ha2 hb2
  have h1 : List.Sublist (l.filter p) (l.mergeSort le) :=
    List.sublist_mergeSort htrans htotal hpair hsub
  have h2 : (l.filter p).filter p = l.filter p :=
    List.filter_eq_self.mpr fun a ha => (List.mem_filter.mp ha).2
  have h3 : List.Sublist (l.filter p) ((l.mergeSort le).filter p) := by
    have := h1.filter p
    rwa [h2] at this
  have h4 : ((l.mergeSort le).filter p).length = (l.filter p).length :=
    ((List.mergeSort_perm l le).filter p).length_eq
  exact (h3.eq_of_length h4.symm).symm

/-- C5: the final report is non-decreasing in the downside deviation
`√semivar` across adjacent rows, and the sort is stable: for every value
`c` of the downside deviation, the rows attaining it appear in the report
in exactly their per-player iteration order. -/
theorem report_sorted_spec (pf : String → Option ℚ) (pd : String → Option Date)
    (files : List (String × List Row)) :
    List.Chain' (fun a b : PlayerStatRow =>
        Real.sqrt (a.semivar : ℝ) ≤ Real.sqrt (b.semivar : ℝ))
      (buildReport (parse_all_team_files pf pd files))
  ∧ (∀ c : ℝ,
      (buildReport (parse_all_team_files pf pd files)).filter
          (fun r => decide (Real.sqrt (r.semivar : ℝ) = c)) =
        (reportRows (parse_all_team_files pf pd files)).filter
          (fun r => decide (Real.sqrt (r.semivar : ℝ) = c))) := by
  have htrans : ∀ (a b c : PlayerStatRow),
      decide (a.semivar ≤ b.semivar) → decide (b.semivar ≤ c.semivar) →
      decide (a.semivar ≤ c.semivar) = true := by
    intro a b c hab hbc
    simp only [decide_eq_true_eq] at hab hbc ⊢
    exact le_trans hab hbc
  have htotal : ∀ (a b : PlayerStatRow),
      (decide (a.semivar ≤ b.semivar) || decide (b.semivar ≤ a.semivar)) = true := by
    intro a b
    simpa using le_total a.semivar b.semivar
  constructor
  · have hpair :=
      List.sorted_mergeSort htrans htotal (reportRows (parse_all_team_files pf pd files))
    refine List.Pairwise.chain' (hpair.imp ?_)
    intro a b hab
    have hq : a.semivar ≤ b.semivar := by simpa using hab
    exact Real.sqrt_le_sqrt (by exact_mod_cast hq)
  · intro c
    unfold buildReport
    apply mergeSort_filter_stable _ _ _ htrans htotal
    intro a b ha hb hpa hpb
    have h0a := semivar_nonneg_of_mem_reportRows _ a ha
    have h0b := semivar_nonneg_of_mem_reportRows _ b hb
    simp only [decide_eq_true_eq] at hpa hpb ⊢
    have hr : (a.semivar : ℝ) = b.semivar := by
      rw [← Real.sqrt_inj (by exact_mod_cast h0a) (by exact_mod_cast h0b), hpa, hpb]
    exact le_of_eq (by exact_mod_cast hr)

/-- Closed-form instance of `report_sorted_spec`. -/
theorem report_sorted_spec_witness :
    List.Chain' (fun a b : PlayerStatRow =>
        Real.sqrt (a.semivar : ℝ) ≤ Real.sqrt (b.semivar : ℝ))
      (buildReport (parse_all_team_files (fun _ => some 7)
        (fun _ => some ⟨2024, 1, 1⟩)
        [("ATL.txt", [⟨some "P", some "7", some "01/01/2024", some "A"⟩])])) :=
  (report_sorted_spec (fun _ => some 7) (fun _ => some ⟨2024, 1, 1⟩)
    [("ATL.txt", [⟨some "P", some "7", some "01/01/2024", some "A"⟩])]).1

/-! ## C7: the coefficient-of-variation guard -/

/-- C7: for every row built by the report builder, the coefficient of
variation `std_dev / mean_pts if abs(mean_pts) > 1e-9 else 0.0` equals
the division exactly when `|pointsPerGame| > 1e-9` — in which case the
denominator is provably nonzero, so the division-by-zero branch is
unreachable — and equals `0` otherwise. -/
theorem cv_guard_spec (player : String) (info : PlayerState)
    (r : PlayerStatRow) (h : buildRow player info = some r) :
    ((1e-9 : ℝ) < |(r.mean_pts : ℝ)| →
        (if (1e-9 : ℝ) < |(r.mean_pts : ℝ)|
          then Real.sqrt (r.semivar : ℝ) / (r.mean_pts : ℝ) else 0)
            = Real.sqrt (r.semivar : ℝ) / (r.mean_pts : ℝ)
      ∧ (r.mean_pts : ℝ) ≠ 0)
  ∧ (¬ (1e-9 : ℝ) < |(r.mean_pts : ℝ)| →
        (if (1e-9 : ℝ) < |(r.mean_pts : ℝ)|
          then Real.sqrt (r.semivar : ℝ) / (r.mean_pts : ℝ) else 0) = 0) := by
  refine ⟨fun hgt => ⟨if_pos hgt, ?_⟩, fun hle => if_neg hle⟩
  intro h0
  rw [h0] at hgt
  simp only [abs_zero] at hgt
  norm_num at hgt

/-- Closed-form instance of `cv_guard_spec`. -/
theorem cv_guard_spec_witness :
    (if (1e-9 : ℝ) < |(((7 : ℚ)) : ℝ)|
      then Real.sqrt (((0 : ℚ)) : ℝ) / (((7 : ℚ)) : ℝ) else 0)
        = Real.sqrt (((0 : ℚ)) : ℝ) / (((7 : ℚ)) : ℝ)
  ∧ (((7 : ℚ)) : ℝ) ≠ 0 :=
  (cv_guard_spec "P" ⟨[7], some ⟨2024, 1, 1⟩, some "A"⟩
      ⟨"P", some "A", 7, 0, some 7, some 7, some 7, 1⟩
      (by
        rw [buildRow_of_ne_nil _ _ (by simp)]
        norm_num [lower_semivariance, List.filter, percentile_singleton])).1
    (by norm_num)

end NbaStats
